import Mathlib

/-!
Shallow embedding of the session-state resolution engine of
`src/scripts/query-hooks.py` (the `--waiting` pipeline): the session
tracker fold in `run_waiting`, the liveness resolver `_liveness_check`,
state derivation `session_state`, pid matching
`match_session_to_claude_pid`, the recency-ordered claiming pass of
`_output_sessions`, and the output ordering via `_state_sort_key` and
`_ts_sortval`.

Python machine-level conventions modelled here:
- `str` is Lean `String`; dicts keyed by strings are association lists in
  insertion order; Python `set` iteration is modelled by a list in some
  enumeration order (CPython string-set order is hash-seed dependent, so a
  property about the program must hold for every order).
- `pathlib.PurePosixPath` is modelled by its `parts` list (`pathParts`), and
  `Path(a).relative_to(b)` success by `relTo a b` (component-prefix test with
  the root handled as in CPython's pathlib).
- `datetime.fromisoformat(...).timestamp()` as used by `_ts_sortval` is
  modelled exactly on the Python 3.10 grammar, returning the epoch offset in
  integer microseconds (`Int`) instead of a float of seconds: the inputs have
  microsecond resolution, so the integer is an order-preserving rescaling of
  the float for all realistically-sized timestamps.
-/

/-- Python `str.strip()` whitespace test (ASCII whitespace as stripped by
CPython on ASCII input). -/
def isPySpace (c : Char) : Bool :=
  c = ' ' || c = '\t' || c = '\n' || c = '\r' || c = '\x0b' || c = '\x0c'

/-- Python `str.strip()` on the character list of a string. -/
def pyStripData (l : List Char) : List Char :=
  ((l.dropWhile isPySpace).reverse.dropWhile isPySpace).reverse

/-- Python `s.startswith(p)`. -/
def strStartsWith (s p : String) : Bool :=
  p.data.isPrefixOf s.data

/-- Split a character list on a separator character (Python `str.split(sep)`
semantics: `""` splits to `[""]`). -/
def splitChar (sep : Char) : List Char → List (List Char)
  | [] => [[]]
  | c :: cs =>
    match splitChar sep cs with
    | [] => [[]]
    | g :: gs => if c = sep then [] :: g :: gs else (c :: g) :: gs

/-- `PurePosixPath(s).parts`: spurious slashes and single dots collapse, a
leading `/` (or the special exactly-two-slash root `//`) becomes the first
part. -/
def pathParts (s : String) : List String :=
  let comps := ((splitChar '/' s.data).map String.mk).filter
    (fun c => c ≠ "" && c ≠ ".")
  if strStartsWith s "//" && !strStartsWith s "///" then "//" :: comps
  else if strStartsWith s "/" then "/" :: comps
  else comps

/-- Success of Python `Path(p).relative_to(base)` (CPython 3.10 pathlib):
the parts of `base` must be a prefix of the parts of `p`; when `base` has no
parts at all, the call succeeds exactly when `p` has no root. -/
def relTo (p base : String) : Bool :=
  let pp := pathParts p
  let bp := pathParts base
  if bp.isEmpty then !strStartsWith p "/" else bp.isPrefixOf pp

/-- Value of an ASCII digit character. -/
def digitVal (c : Char) : Option Nat :=
  if '0' ≤ c && c ≤ '9' then some (c.toNat - 48) else none

/-- Parse exactly `n` ASCII digits into an accumulator. -/
def parseDigitsAux : Nat → Nat → List Char → Option (Nat × List Char)
  | acc, 0, l => some (acc, l)
  | acc, n+1, c :: cs =>
    match digitVal c with
    | some d => parseDigitsAux (acc * 10 + d) n cs
    | none => none
  | _, _+1, [] => none

/-- Parse exactly `n` ASCII digits. -/
def parseNDigits (n : Nat) (l : List Char) : Option (Nat × List Char) :=
  parseDigitsAux 0 n l

/-- Expect one specific character. -/
def expectChar (c : Char) : List Char → Option (List Char)
  | x :: xs => if x = c then some xs else none
  | [] => none

/-- Fractional-seconds suffix of the Python 3.10 isoformat grammar: exactly 3
or exactly 6 digits, consuming the whole input; result in microseconds. -/
def parseFrac (l : List Char) : Option Nat :=
  match parseNDigits 3 l with
  | some (v, []) => some (v * 1000)
  | some (v, rest) =>
    match parseNDigits 3 rest with
    | some (w, []) => some (v * 1000 + w)
    | _ => none
  | none => none

/-- `HH[:MM[:SS[.fff[fff]]]]` of the Python 3.10 isoformat grammar, consuming
the whole input; returns (hour, minute, second, microsecond). -/
def parseHMSF (l : List Char) : Option (Nat × Nat × Nat × Nat) :=
  match parseNDigits 2 l with
  | none => none
  | some (h, rest) =>
    match rest with
    | [] => some (h, 0, 0, 0)
    | ':' :: r2 =>
      match parseNDigits 2 r2 with
      | none => none
      | some (mi, rest2) =>
        match rest2 with
        | [] => some (h, mi, 0, 0)
        | ':' :: r3 =>
          match parseNDigits 2 r3 with
          | none => none
          | some (sec, rest3) =>
            match rest3 with
            | [] => some (h, mi, sec, 0)
            | '.' :: r4 => (parseFrac r4).map (fun us => (h, mi, sec, us))
            | _ => none
        | _ => none
    | _ => none

/-- Gregorian leap year. -/
def isLeap (y : Nat) : Bool :=
  (y % 4 = 0 && y % 100 ≠ 0) || y % 400 = 0

/-- Days in a month of the proleptic Gregorian calendar. -/
def daysInMonth (y m : Nat) : Nat :=
  if m = 2 then (if isLeap y then 29 else 28)
  else if m = 4 || m = 6 || m = 9 || m = 11 then 30
  else 31

/-- Days from 1970-01-01 to the civil date y-m-d (valid for y ≥ 1). -/
def daysFromCivil (y m d : Nat) : Int :=
  let y' := if m ≤ 2 then y - 1 else y
  let era := y' / 400
  let yoe := y' % 400
  let mp := if m > 2 then m - 3 else m + 9
  let doy := (153 * mp + 2) / 5 + d - 1
  let doe := yoe * 365 + yoe / 4 - yoe / 100 + doy
  (era : Int) * 146097 + (doe : Int) - 719468

/-- `datetime.fromisoformat(s)` followed by `.timestamp()` with naive values
treated as UTC, per `_ts_sortval`; Python 3.10 grammar
`YYYY-MM-DD[*HH[:MM[:SS[.fff[fff]]]]][+HH:MM[:SS[.ffffff]]]` with field
validation as in the datetime/timezone constructors. Result: microseconds
since the epoch, or `none` where Python raises. -/
def tsTimestampUs (s : String) : Option Int := do
  let (y, r1) ← parseNDigits 4 s.data
  let r2 ← expectChar '-' r1
  let (mo, r3) ← parseNDigits 2 r2
  let r4 ← expectChar '-' r3
  let (d, r5) ← parseNDigits 2 r4
  if 1 ≤ y ∧ 1 ≤ mo ∧ mo ≤ 12 ∧ 1 ≤ d ∧ d ≤ daysInMonth y mo then
    match r5 with
    | [] => some (86400000000 * daysFromCivil y mo d)
    | _sep :: timeStr =>
      let tp := timeStr.takeWhile (fun c => c ≠ '+' && c ≠ '-')
      let tz := timeStr.dropWhile (fun c => c ≠ '+' && c ≠ '-')
      match parseHMSF tp with
      | none => none
      | some (h, mi, sec, us) =>
        if h ≤ 23 ∧ mi ≤ 59 ∧ sec ≤ 59 then
          let base : Int := 86400000000 * daysFromCivil y mo d +
            1000000 * (3600 * (h : Int) + 60 * mi + sec) + us
          match tz with
          | [] => some base
          | sign :: tzRest =>
            if tzRest.length = 5 ∨ tzRest.length = 8 ∨ tzRest.length = 15 then
              match parseHMSF tzRest with
              | none => none
              | some (th, tm, tsc, tus) =>
                let off : Int :=
                  1000000 * (3600 * (th : Int) + 60 * tm + tsc) + tus
                let off := if sign = '-' then -off else off
                if off.natAbs < 86400000000 then some (base - off) else none
            else none
        else none
  else none

/-- `_ts_sortval`: timestamp sort value; 0 (the epoch) on parse failure.
(The Python original returns a float of seconds; this returns the same
instant in integer microseconds, an order-preserving rescaling.) -/
def _ts_sortval (s : String) : Int :=
  (tsTimestampUs s).getD 0

/-- The consumed top-level fields of one parsed JSON event object (§3 of the
spec; `run_waiting` and `session_state` read exactly these keys). A missing
key is `none`; Python's `event.get(k, d)` is `(·.getD d)`. -/
structure Event where
  _event : Option String
  session_id : Option String
  cwd : Option String
  _ts : Option String
  tool_name : Option String
  notification_type : Option String
  message : Option String
deriving DecidableEq

/-- One per-session tracking record as built by `run_waiting`. -/
structure SessionRec where
  last_event : Option Event
  last_event_type : String
  terminated : Bool
  start_cwd : String
  cwd : String
deriving DecidableEq

/-- `TRACKED_EVENTS`. -/
def TRACKED_EVENTS : List String :=
  ["SessionStart",
   "Stop", "PermissionRequest", "Notification",
   "PreToolUse", "PostToolUse", "PostToolUseFailure",
   "UserPromptSubmit", "SubagentStart", "SubagentStop",
   "SessionEnd"]

/-- `WAITING_NOTIFICATION_TYPES`. -/
def WAITING_NOTIFICATION_TYPES : List String :=
  ["permission_prompt", "idle_prompt", "elicitation_dialog"]

/-- `_is_tracked_event`. -/
def _is_tracked_event (e : Event) : Bool :=
  let etype := e._event.getD ""
  if !(TRACKED_EVENTS.contains etype) then false
  else if etype = "Notification" then
    match e.notification_type with
    | some t => WAITING_NOTIFICATION_TYPES.contains t
    | none => false
  else true

/-- The session map of `run_waiting`: a Python dict in insertion order. -/
abbrev SessMap := List (String × SessionRec)

/-- Dict lookup. -/
def lookupSess : SessMap → String → Option SessionRec
  | [], _ => none
  | (k, v) :: rest, sid => if k = sid then some v else lookupSess rest sid

/-- Dict write: overwrite in place, or append a new key at the end
(Python dict insertion order). -/
def updSess : SessMap → String → SessionRec → SessMap
  | [], sid, r => [(sid, r)]
  | (k, v) :: rest, sid, r =>
    if k = sid then (k, r) :: rest else (k, v) :: updSess rest sid r

/-- The fresh record `run_waiting` creates on the first event of an unseen
session id (both cwd fields start from this event's cwd). -/
def initRecord (e : Event) : SessionRec :=
  { last_event := none, last_event_type := "", terminated := false,
    start_cwd := e.cwd.getD "", cwd := e.cwd.getD "" }

/-- The record mutations `run_waiting` applies for one event to the
(existing or fresh) record: latest-cwd bookkeeping, `start_cwd` capture on
`SessionStart`, termination on `SessionEnd`, `last_event` on tracked
events. -/
def ingestRecord (e : Event) (r0 : SessionRec) : SessionRec :=
  let etype := e._event.getD ""
  let cwdE := e.cwd.getD ""
  let r1 := if cwdE ≠ "" then { r0 with cwd := cwdE } else r0
  let r2 := if etype = "SessionStart" ∧ cwdE ≠ "" then
      { r1 with start_cwd := cwdE } else r1
  if etype = "SessionEnd" then
    { r2 with terminated := true, last_event := some e,
              last_event_type := etype }
  else if _is_tracked_event e then
    { r2 with last_event := some e, last_event_type := etype }
  else r2

/-- The per-event body of the `run_waiting` ingest loop, after a line has
parsed to a JSON object: create/update the record of `session_id`. -/
def ingestEvent (m : SessMap) (e : Event) : SessMap :=
  let sid := e.session_id.getD ""
  if sid = "" then m
  else updSess m sid (ingestRecord e ((lookupSess m sid).getD (initRecord e)))

/-- One iteration of the `run_waiting` line loop: strip, require a leading
brace, parse (`parse` stands for `json.loads` composed with extraction of
the consumed fields; parse failure is `none`), then ingest. -/
def processLine (parse : String → Option Event) (m : SessMap)
    (line : String) : SessMap :=
  let ld := pyStripData line.data
  if ld.isEmpty || ld.head? ≠ some '{' then m
  else
    match parse (String.mk ld) with
    | none => m
    | some e => ingestEvent m e

/-- The whole `run_waiting` ingest fold over an input line stream. -/
def ingestLines (parse : String → Option Event) (lines : List String) :
    SessMap :=
  lines.foldl (processLine parse) []

/-- Event-level ingest fold (the stream after line framing and parsing). -/
def ingestEvents (es : List Event) : SessMap :=
  es.foldl ingestEvent []

/-- The candidate-scanning loop of `_liveness_check` (its layer-3/4 `for`
loop over `live_cwds`): for each candidate, try start-cwd ancestry, then
last-cwd ancestry. -/
def _liveness_loop (start_cwd last_cwd : String) : List String → String
  | [] => ""
  | c :: rest =>
    if start_cwd ≠ "" ∧ relTo start_cwd c then "ancestor:start"
    else if last_cwd ≠ "" ∧ last_cwd ≠ start_cwd ∧ relTo last_cwd c then
      "ancestor:last"
    else _liveness_loop start_cwd last_cwd rest

/-- `_liveness_check`: match-method tag, or `""` when dead. `live_cwds` is
the Python set in one enumeration order. -/
def _liveness_check (rec : SessionRec) (live_cwds : List String) : String :=
  if rec.start_cwd ≠ "" ∧ live_cwds.contains rec.start_cwd then "exact:start"
  else if rec.cwd ≠ "" ∧ live_cwds.contains rec.cwd then "exact:last"
  else _liveness_loop rec.start_cwd rec.cwd live_cwds

/-- The event-kind table of `session_state` (its `if etype == ...` chain,
producing the pre-override state for a present last event). -/
def eventTableState (ev : Event) : String :=
  if ev._event.getD "" = "Stop" then "FRESH"
  else if ev._event.getD "" = "PermissionRequest" then "PERMIT"
  else if ev._event.getD "" = "Notification" then
    if ev.notification_type.getD "" = "idle_prompt" then "IDLE"
    else if ev.notification_type.getD "" = "permission_prompt" then "PERMIT"
    else if ev.notification_type.getD "" = "elicitation_dialog" then "QUESTION"
    else "IDLE"
  else if ev._event.getD "" = "PreToolUse" then "RUN:" ++ ev.tool_name.getD "?"
  else if ev._event.getD "" = "UserPromptSubmit" then "RUN:think"
  else if ev._event.getD "" = "SubagentStart" then "RUN:agent"
  else if ev._event.getD "" = "PostToolUse" ∨
          ev._event.getD "" = "PostToolUseFailure" ∨
          ev._event.getD "" = "SubagentStop" then "RUN:done"
  else if ev._event.getD "" = "SessionStart" then "RUN:start"
  else "RUN:?"

/-- `session_state`: derive `(state, liveness_method)` from the record's
last tracked event and the liveness check; the empty-match override is the
final step. -/
def session_state (rec : SessionRec) (live_cwds : List String) :
    String × String :=
  if rec.terminated then ("TERMINATED", "")
  else
    match rec.last_event with
    | none =>
      if _liveness_check rec live_cwds = "" then ("DEAD", "")
      else ("RUN:?", _liveness_check rec live_cwds)
    | some ev =>
      if _liveness_check rec live_cwds = "" then ("DEAD", "")
      else (eventTableState ev, _liveness_check rec live_cwds)

/-- `match_session_to_claude_pid`: the same four layers as
`_liveness_check`, over the pid→cwd dict (association list in dict order),
returning the first matching pid. -/
def match_session_to_claude_pid (rec : SessionRec)
    (pid_cwd_map : List (Nat × String)) : Option Nat :=
  match (if rec.start_cwd ≠ "" then
      pid_cwd_map.find? (fun pc => pc.2 == rec.start_cwd) else none) with
  | some pc => some pc.1
  | none =>
  match (if rec.cwd ≠ "" then
      pid_cwd_map.find? (fun pc => pc.2 == rec.cwd) else none) with
  | some pc => some pc.1
  | none =>
  match (if rec.start_cwd ≠ "" then
      pid_cwd_map.find? (fun pc => relTo rec.start_cwd pc.2) else none) with
  | some pc => some pc.1
  | none =>
  match (if rec.cwd ≠ "" ∧ rec.cwd ≠ rec.start_cwd then
      pid_cwd_map.find? (fun pc => relTo rec.cwd pc.2) else none) with
  | some pc => some pc.1
  | none => none

/-- `_state_sort_key`: state-group priority (`RUN:*` all share group 4). -/
def _state_sort_key (state : String) : Nat :=
  if strStartsWith state "RUN:" then 4
  else if state = "FRESH" then 0
  else if state = "PERMIT" then 1
  else if state = "QUESTION" then 2
  else if state = "IDLE" then 3
  else if state = "DEAD" then 5
  else 4

/-- Stable insertion step: place `x` after every already-placed element `y`
with `le y x` (models Python's stable `sorted`). -/
def sInsert (le : α → α → Bool) (x : α) : List α → List α
  | [] => [x]
  | y :: ys => if le y x then y :: sInsert le x ys else x :: y :: ys

/-- Stable sort by a boolean total preorder (the unique stable sort, hence
extensionally Python's `sorted`/`list.sort`). -/
def sSort (le : α → α → Bool) (l : List α) : List α :=
  l.foldl (fun acc x => sInsert le x acc) []

/-- The `_ts` string `_output_sessions` reads off a record:
`(last_event or {}).get("_ts", "")`. -/
def sessTs (rec : SessionRec) : String :=
  match rec.last_event with
  | some e => e._ts.getD ""
  | none => ""

/-- Sort value of one sessions-dict entry in `_output_sessions`'s
recency sort. -/
def sessKey (sr : String × SessionRec) : Int :=
  _ts_sortval (sessTs sr.2)

/-- `sorted(..., reverse := descending)` comparator for the recency sort:
`a` may stay before `b` iff its key is ≥. -/
def sessLe (a b : String × SessionRec) : Bool :=
  decide (sessKey b ≤ sessKey a)

/-- One emitted output record (§3 OutputRecord), restricted to the fields
the resolution engine itself computes; `claimed_pid` is `some p` exactly
when this session added `p` to the claimed set. -/
structure OutputRecord where
  session_id : String
  state : String
  matchMethod : String
  _ts : String
  matched_pid : Option Nat
  claimed_pid : Option Nat
deriving DecidableEq

/-- Comparator of the final `records.sort(key := (state group, -ts))`. -/
def recLe (a b : OutputRecord) : Bool :=
  decide (_state_sort_key a.state < _state_sort_key b.state) ||
  (decide (_state_sort_key a.state = _state_sort_key b.state) &&
   decide (_ts_sortval b._ts ≤ _ts_sortval a._ts))

/-- The reduced pid→cwd map excluding already-claimed pids
(`avail_pid_cwd` in `_output_sessions`). -/
def passAvail (pid_cwd_map : List (Nat × String)) (claimed : List Nat) :
    List (Nat × String) :=
  pid_cwd_map.filter (fun pc => !(claimed.contains pc.1))

/-- Python's `if matched_pid and state != "DEAD"` (pid 0 is falsy). -/
def passDoClaim (matched : Option Nat) (st : String) : Bool :=
  (match matched with | some p => decide (p ≠ 0) | none => false) &&
  decide (st ≠ "DEAD")

/-- The claimed set after one session (`claimed_pids.add(matched_pid)`). -/
def passClaimed (claimed : List Nat) (matched : Option Nat) (doClaim : Bool) :
    List Nat :=
  if doClaim then
    (match matched with | some p => p :: claimed | none => claimed)
  else claimed

/-- The output record built for one non-terminated session. -/
def passRecord (sid : String) (rec : SessionRec) (sm : String × String)
    (matched : Option Nat) (doClaim : Bool) : OutputRecord :=
  { session_id := sid, state := sm.1, matchMethod := sm.2,
    _ts := sessTs rec, matched_pid := matched,
    claimed_pid := if doClaim then matched else none }

/-- The claiming loop of `_output_sessions`: walk the recency-sorted
sessions, skip terminated ones, reduce the pid map by the claimed set,
match a pid, derive state from the unclaimed cwds, claim on success
(Python truthiness: pid 0 is falsy and is never claimed). -/
def passGo (pid_cwd_map : List (Nat × String)) (without_dead : Bool) :
    List Nat → List (String × SessionRec) → List OutputRecord
  | _, [] => []
  | claimed_pids, (sid, rec) :: rest =>
    if rec.terminated then passGo pid_cwd_map without_dead claimed_pids rest
    else
      let avail := passAvail pid_cwd_map claimed_pids
      let matched := match_session_to_claude_pid rec avail
      let sm := session_state rec (avail.map Prod.snd)
      let doClaim := passDoClaim matched sm.1
      let out := passGo pid_cwd_map without_dead
        (passClaimed claimed_pids matched doClaim) rest
      if without_dead && decide (sm.1 = "DEAD") then out
      else passRecord sid rec sm matched doClaim :: out

/-- `_output_sessions`, as a function from the session map and the pid→cwd
snapshot to the ordered emitted records: recency sort, claiming pass, final
state-group/timestamp sort. -/
def _output_sessions (sessions : SessMap) (pid_cwd_map : List (Nat × String))
    (without_dead : Bool) : List OutputRecord :=
  sSort recLe (passGo pid_cwd_map without_dead [] (sSort sessLe sessions))

/-! ### Generic lemmas about the stable sort and list helpers -/

theorem sInsert_perm (le : α → α → Bool) (x : α) :
    ∀ l : List α, (sInsert le x l).Perm (x :: l)
  | [] => List.Perm.refl _
  | y :: ys => by
    simp only [sInsert]
    by_cases h : le y x = true
    · rw [if_pos h]
      exact ((sInsert_perm le x ys).cons y).trans (List.Perm.swap x y ys)
    · rw [if_neg h]

theorem sSort_foldl_perm (le : α → α → Bool) :
    ∀ (l acc : List α),
      (l.foldl (fun a x => sInsert le x a) acc).Perm (acc ++ l)
  | [], acc => by simp
  | x :: xs, acc => by
    have h1 := sSort_foldl_perm le xs (sInsert le x acc)
    have h2 : (sInsert le x acc ++ xs).Perm ((x :: acc) ++ xs) :=
      (sInsert_perm le x acc).append_right xs
    have h3 : ((x :: acc) ++ xs).Perm (acc ++ x :: xs) := List.perm_middle.symm
    exact (h1.trans h2).trans h3

theorem sSort_perm (le : α → α → Bool) (l : List α) :
    (sSort le l).Perm l :=
  sSort_foldl_perm le l []

theorem sInsert_mem (le : α → α → Bool) (x : α) (l : List α) (z : α)
    (hz : z ∈ sInsert le x l) : z = x ∨ z ∈ l := by
  have := (sInsert_perm le x l).mem_iff.1 hz
  simpa using this

theorem sInsert_pairwise (le : α → α → Bool)
    (htot : ∀ a b, le a b = true ∨ le b a = true)
    (htrans : ∀ a b c, le a b = true → le b c = true → le a c = true)
    (x : α) :
    ∀ l : List α, l.Pairwise (fun a b => le a b = true) →
      (sInsert le x l).Pairwise (fun a b => le a b = true)
  | [], _ => by simp [sInsert]
  | y :: ys, h => by
    rw [List.pairwise_cons] at h
    obtain ⟨hy, hys⟩ := h
    simp only [sInsert]
    by_cases hle : le y x = true
    · rw [if_pos hle, List.pairwise_cons]
      refine ⟨?_, sInsert_pairwise le htot htrans x ys hys⟩
      intro z hz
      rcases sInsert_mem le x ys z hz with hzx | hzys
      · exact hzx ▸ hle
      · exact hy z hzys
    · rw [if_neg hle, List.pairwise_cons]
      have hxy : le x y = true := (htot x y).resolve_right (fun hc => hle hc)
      refine ⟨?_, List.pairwise_cons.2 ⟨hy, hys⟩⟩
      intro z hz
      rcases List.mem_cons.1 hz with hzy | hzys
      · exact hzy ▸ hxy
      · exact htrans x y z hxy (hy z hzys)

theorem sSort_foldl_pairwise (le : α → α → Bool)
    (htot : ∀ a b, le a b = true ∨ le b a = true)
    (htrans : ∀ a b c, le a b = true → le b c = true → le a c = true) :
    ∀ (l acc : List α), acc.Pairwise (fun a b => le a b = true) →
      (l.foldl (fun a x => sInsert le x a) acc).Pairwise
        (fun a b => le a b = true)
  | [], _, h => h
  | x :: xs, acc, h =>
    sSort_foldl_pairwise le htot htrans xs (sInsert le x acc)
      (sInsert_pairwise le htot htrans x acc h)

theorem sSort_pairwise (le : α → α → Bool)
    (htot : ∀ a b, le a b = true ∨ le b a = true)
    (htrans : ∀ a b c, le a b = true → le b c = true → le a c = true)
    (l : List α) :
    (sSort le l).Pairwise (fun a b => le a b = true) :=
  sSort_foldl_pairwise le htot htrans l [] List.Pairwise.nil

theorem isPrefixOf_iff_append {α} [BEq α] [LawfulBEq α] :
    ∀ (l m : List α), l.isPrefixOf m = true ↔ ∃ t, m = l ++ t
  | [], m => by simp [List.isPrefixOf]
  | a :: as, [] => by simp [List.isPrefixOf]
  | a :: as, b :: bs => by
    simp only [List.isPrefixOf, Bool.and_eq_true, beq_iff_eq,
      isPrefixOf_iff_append as bs, List.cons_append, List.cons.injEq]
    constructor
    · rintro ⟨rfl, t, rfl⟩
      exact ⟨t, rfl, rfl⟩
    · rintro ⟨t, rfl, rfl⟩
      exact ⟨rfl, t, rfl⟩

/-! ### Facts about state derivation and the liveness resolver -/

theorem strStartsWith_append (s t : String) :
    strStartsWith (s ++ t) s = true := by
  unfold strStartsWith
  rw [String.data_append]
  exact (isPrefixOf_iff_append s.data (s.data ++ t.data)).2 ⟨t.data, rfl⟩

theorem run_ne_dead (t : String) : "RUN:" ++ t ≠ "DEAD" := by
  intro h
  have h2 := congrArg String.data h
  rw [String.data_append] at h2
  have h3 : 'R' :: 'U' :: 'N' :: ':' :: t.data = ['D', 'E', 'A', 'D'] := h2
  simp at h3

theorem state_key_run (t : String) : _state_sort_key ("RUN:" ++ t) = 4 := by
  unfold _state_sort_key
  rw [if_pos (strStartsWith_append "RUN:" t)]

theorem eventTableState_ne_dead (ev : Event) : eventTableState ev ≠ "DEAD" := by
  unfold eventTableState
  split_ifs <;> first | decide | exact run_ne_dead _

theorem eventTableState_key_le (ev : Event) :
    _state_sort_key (eventTableState ev) ≤ 4 := by
  unfold eventTableState
  split_ifs <;> first | decide | exact Nat.le_of_eq (state_key_run _)

/-- When the record is not terminated and the liveness check failed, the
override forces `("DEAD", "")`. -/
theorem session_state_dead (rec : SessionRec) (live_cwds : List String)
    (ht : rec.terminated = false)
    (hmm : _liveness_check rec live_cwds = "") :
    session_state rec live_cwds = ("DEAD", "") := by
  unfold session_state
  rw [ht]
  cases rec.last_event with
  | none => simp [hmm]
  | some ev => simp [hmm]

/-- When the record is not terminated and the liveness check succeeded, the
state comes from the table (or `RUN:?`), is never `DEAD`, its sort key is at
most 4, and the returned match method is the liveness result. -/
theorem session_state_alive (rec : SessionRec) (live_cwds : List String)
    (ht : rec.terminated = false)
    (hmm : _liveness_check rec live_cwds ≠ "") :
    (session_state rec live_cwds).1 ≠ "DEAD" ∧
    _state_sort_key (session_state rec live_cwds).1 ≤ 4 ∧
    (session_state rec live_cwds).2 = _liveness_check rec live_cwds := by
  unfold session_state
  rw [ht]
  cases rec.last_event with
  | none =>
    simp only [Bool.false_eq_true, if_false, if_neg hmm]
    exact ⟨by decide, by decide, trivial⟩
  | some ev =>
    simp only [Bool.false_eq_true, if_false, if_neg hmm]
    exact ⟨eventTableState_ne_dead ev, eventTableState_key_le ev, trivial⟩

/-- The loop of layers 3/4 succeeds iff some candidate matches either
ancestry test. -/
theorem _liveness_loop_ne_iff (s lc : String) :
    ∀ l : List String, _liveness_loop s lc l ≠ "" ↔
      ∃ c ∈ l, ((s ≠ "" ∧ relTo s c = true) ∨
                (lc ≠ "" ∧ lc ≠ s ∧ relTo lc c = true))
  | [] => by simp [_liveness_loop]
  | c :: rest => by
    simp only [_liveness_loop]
    by_cases h1 : s ≠ "" ∧ relTo s c = true
    · rw [if_pos h1]
      constructor
      · intro _
        exact ⟨c, List.mem_cons_self c rest, Or.inl h1⟩
      · intro _
        decide
    · rw [if_neg h1]
      by_cases h2 : lc ≠ "" ∧ lc ≠ s ∧ relTo lc c = true
      · rw [if_pos h2]
        constructor
        · intro _
          exact ⟨c, List.mem_cons_self c rest, Or.inr h2⟩
        · intro _
          decide
      · rw [if_neg h2, _liveness_loop_ne_iff s lc rest]
        constructor
        · rintro ⟨d, hd, hcase⟩
          exact ⟨d, List.mem_cons_of_mem c hd, hcase⟩
        · rintro ⟨d, hd, hcase⟩
          rcases List.mem_cons.1 hd with rfl | hd'
          · rcases hcase with hc1 | hc2
            · exact absurd hc1 h1
            · exact absurd hc2 h2
          · exact ⟨d, hd', hcase⟩

theorem _liveness_loop_start (s lc : String) :
    ∀ l : List String, _liveness_loop s lc l = "ancestor:start" →
      ∃ c ∈ l, relTo s c = true
  | [] => by simp [_liveness_loop]
  | c :: rest => by
    simp only [_liveness_loop]
    split_ifs with h1 h2
    · intro _
      exact ⟨c, List.mem_cons_self c rest, h1.2⟩
    · intro h
      exact absurd h (by decide)
    · intro h
      obtain ⟨d, hd, hrel⟩ := _liveness_loop_start s lc rest h
      exact ⟨d, List.mem_cons_of_mem c hd, hrel⟩

theorem _liveness_loop_last (s lc : String) :
    ∀ l : List String, _liveness_loop s lc l = "ancestor:last" →
      ∃ c ∈ l, relTo lc c = true
  | [] => by simp [_liveness_loop]
  | c :: rest => by
    simp only [_liveness_loop]
    split_ifs with h1 h2
    · intro h
      exact absurd h (by decide)
    · intro _
      exact ⟨c, List.mem_cons_self c rest, h2.2.2⟩
    · intro h
      obtain ⟨d, hd, hrel⟩ := _liveness_loop_last s lc rest h
      exact ⟨d, List.mem_cons_of_mem c hd, hrel⟩

/-- Candidates that match neither ancestry test are skipped by the loop. -/
theorem _liveness_loop_append (s lc : String) :
    ∀ (pre rest : List String),
      (∀ c' ∈ pre, ¬(s ≠ "" ∧ relTo s c' = true) ∧
                   ¬(lc ≠ "" ∧ lc ≠ s ∧ relTo lc c' = true)) →
      _liveness_loop s lc (pre ++ rest) = _liveness_loop s lc rest
  | [], rest, _ => rfl
  | c :: pre, rest, h => by
    have hc := h c (List.mem_cons_self c pre)
    simp only [List.cons_append, _liveness_loop, if_neg hc.1, if_neg hc.2]
    exact _liveness_loop_append s lc pre rest
      (fun c' hc' => h c' (List.mem_cons_of_mem c hc'))

/-- If `relTo` succeeds, the parts of the base are a component prefix of the
parts of the path. -/
theorem relTo_prefix (p c : String) (h : relTo p c = true) :
    ∃ t, pathParts p = pathParts c ++ t := by
  unfold relTo at h
  by_cases hbp : (pathParts c).isEmpty
  · rw [List.isEmpty_iff] at hbp
    exact ⟨pathParts p, by rw [hbp, List.nil_append]⟩
  · rw [if_neg hbp] at h
    exact (isPrefixOf_iff_append (pathParts c) (pathParts p)).1 h

theorem _liveness_check_ne_iff (rec : SessionRec) (cwds : List String) :
    _liveness_check rec cwds ≠ "" ↔
      (rec.start_cwd ≠ "" ∧ rec.start_cwd ∈ cwds) ∨
      (rec.cwd ≠ "" ∧ rec.cwd ∈ cwds) ∨
      (∃ c ∈ cwds, (rec.start_cwd ≠ "" ∧ relTo rec.start_cwd c = true) ∨
        (rec.cwd ≠ "" ∧ rec.cwd ≠ rec.start_cwd ∧ relTo rec.cwd c = true)) := by
  unfold _liveness_check
  by_cases h1 : rec.start_cwd ≠ "" ∧ cwds.contains rec.start_cwd = true
  · rw [if_pos h1]
    exact iff_of_true (by decide) (Or.inl ⟨h1.1, List.elem_iff.1 h1.2⟩)
  · rw [if_neg h1]
    by_cases h2 : rec.cwd ≠ "" ∧ cwds.contains rec.cwd = true
    · rw [if_pos h2]
      exact iff_of_true (by decide) (Or.inr (Or.inl ⟨h2.1, List.elem_iff.1 h2.2⟩))
    · rw [if_neg h2, _liveness_loop_ne_iff]
      constructor
      · intro h
        exact Or.inr (Or.inr h)
      · rintro (ha | hb | hc)
        · exact absurd ⟨ha.1, List.elem_iff.2 ha.2⟩ h1
        · exact absurd ⟨hb.1, List.elem_iff.2 hb.2⟩ h2
        · exact hc

theorem ifFind_some_pred {cond : Prop} [Decidable cond]
    {l : List (Nat × String)} {f : Nat × String → Bool} {pc : Nat × String}
    (h : (if cond then l.find? f else none) = some pc) :
    cond ∧ pc ∈ l ∧ f pc = true := by
  split at h
  · exact ⟨by assumption, List.mem_of_find?_eq_some h, List.find?_some h⟩
  · cases h

theorem ifFind_none {cond : Prop} [Decidable cond]
    {l : List (Nat × String)} {f : Nat × String → Bool}
    (h : (if cond then l.find? f else none) = none) :
    ¬(cond ∧ ∃ x ∈ l, f x = true) := by
  split at h
  · rw [List.find?_eq_none] at h
    rintro ⟨-, x, hx, hfx⟩
    exact h x hx hfx
  · rename_i hc
    rintro ⟨hcc, -⟩
    exact hc hcc

/-- A matched pid is a key of the supplied pid→cwd map. -/
theorem match_pid_mem (rec : SessionRec) (m : List (Nat × String)) (p : Nat)
    (h : match_session_to_claude_pid rec m = some p) : ∃ c, (p, c) ∈ m := by
  unfold match_session_to_claude_pid at h
  repeat' split at h
  all_goals first
    | exact Option.noConfusion h
    | (rename_i pc heq
       exact ⟨pc.2, by
         rw [← Option.some.inj h]
         simpa using (ifFind_some_pred heq).2.1⟩)

theorem match_isSome_iff (rec : SessionRec) (m : List (Nat × String)) :
    (match_session_to_claude_pid rec m).isSome = true ↔
      (rec.start_cwd ≠ "" ∧ ∃ pc ∈ m, pc.2 = rec.start_cwd) ∨
      (rec.cwd ≠ "" ∧ ∃ pc ∈ m, pc.2 = rec.cwd) ∨
      (rec.start_cwd ≠ "" ∧ ∃ pc ∈ m, relTo rec.start_cwd pc.2 = true) ∨
      ((rec.cwd ≠ "" ∧ rec.cwd ≠ rec.start_cwd) ∧
        ∃ pc ∈ m, relTo rec.cwd pc.2 = true) := by
  unfold match_session_to_claude_pid
  cases h1 : (if rec.start_cwd ≠ "" then
      m.find? (fun pc => pc.2 == rec.start_cwd) else none) with
  | some pc =>
    obtain ⟨hc, hmem, hf⟩ := ifFind_some_pred h1
    exact iff_of_true rfl (Or.inl ⟨hc, pc, hmem, beq_iff_eq.1 hf⟩)
  | none =>
  have hn1 := ifFind_none h1
  cases h2 : (if rec.cwd ≠ "" then
      m.find? (fun pc => pc.2 == rec.cwd) else none) with
  | some pc =>
    obtain ⟨hc, hmem, hf⟩ := ifFind_some_pred h2
    exact iff_of_true rfl (Or.inr (Or.inl ⟨hc, pc, hmem, beq_iff_eq.1 hf⟩))
  | none =>
  have hn2 := ifFind_none h2
  cases h3 : (if rec.start_cwd ≠ "" then
      m.find? (fun pc => relTo rec.start_cwd pc.2) else none) with
  | some pc =>
    obtain ⟨hc, hmem, hf⟩ := ifFind_some_pred h3
    exact iff_of_true rfl (Or.inr (Or.inr (Or.inl ⟨hc, pc, hmem, hf⟩)))
  | none =>
  have hn3 := ifFind_none h3
  cases h4 : (if rec.cwd ≠ "" ∧ rec.cwd ≠ rec.start_cwd then
      m.find? (fun pc => relTo rec.cwd pc.2) else none) with
  | some pc =>
    obtain ⟨hc, hmem, hf⟩ := ifFind_some_pred h4
    exact iff_of_true rfl (Or.inr (Or.inr (Or.inr ⟨hc, pc, hmem, hf⟩)))
  | none =>
  have hn4 := ifFind_none h4
  refine iff_of_false (by simp) ?_
  rintro (⟨ha, x, hx, hfx⟩ | ⟨hb, x, hx, hfx⟩ | ⟨hc, x, hx, hfx⟩ |
          ⟨hd, x, hx, hfx⟩)
  · exact hn1 ⟨ha, x, hx, beq_iff_eq.2 hfx⟩
  · exact hn2 ⟨hb, x, hx, beq_iff_eq.2 hfx⟩
  · exact hn3 ⟨hc, x, hx, hfx⟩
  · exact hn4 ⟨hd, x, hx, hfx⟩

/-! ### Comparator properties and the claiming pass -/

theorem sessLe_total (a b : String × SessionRec) :
    sessLe a b = true ∨ sessLe b a = true := by
  unfold sessLe
  rcases le_total (sessKey b) (sessKey a) with h | h
  · exact Or.inl (decide_eq_true h)
  · exact Or.inr (decide_eq_true h)

theorem sessLe_trans (a b c : String × SessionRec)
    (hab : sessLe a b = true) (hbc : sessLe b c = true) :
    sessLe a c = true := by
  unfold sessLe at *
  rw [decide_eq_true_eq] at *
  exact le_trans hbc hab

theorem recLe_total (a b : OutputRecord) :
    recLe a b = true ∨ recLe b a = true := by
  unfold recLe
  simp only [Bool.or_eq_true, Bool.and_eq_true, decide_eq_true_eq]
  rcases Nat.lt_trichotomy (_state_sort_key a.state) (_state_sort_key b.state)
    with h | h | h
  · exact Or.inl (Or.inl h)
  · rcases le_total (_ts_sortval b._ts) (_ts_sortval a._ts) with ht | ht
    · exact Or.inl (Or.inr ⟨h, ht⟩)
    · exact Or.inr (Or.inr ⟨h.symm, ht⟩)
  · exact Or.inr (Or.inl h)

theorem recLe_trans (a b c : OutputRecord)
    (hab : recLe a b = true) (hbc : recLe b c = true) :
    recLe a c = true := by
  unfold recLe at *
  simp only [Bool.or_eq_true, Bool.and_eq_true, decide_eq_true_eq] at *
  rcases hab with h1 | ⟨h1, t1⟩
  · rcases hbc with h2 | ⟨h2, t2⟩
    · exact Or.inl (Nat.lt_trans h1 h2)
    · exact Or.inl (h2 ▸ h1)
  · rcases hbc with h2 | ⟨h2, t2⟩
    · exact Or.inl (h1 ▸ h2)
    · exact Or.inr ⟨h1.trans h2, le_trans t2 t1⟩

/-- Two output records never claim the same pid (the relation of the
injectivity property). -/
def DisjClaim (r1 r2 : OutputRecord) : Prop :=
  ∀ p : Nat, r1.claimed_pid = some p → r2.claimed_pid ≠ some p

theorem disjClaim_symm : Symmetric DisjClaim := by
  intro r1 r2 h p h2 h1
  exact h p h1 h2

theorem passClaimed_subset (claimed : List Nat) (matched : Option Nat)
    (doClaim : Bool) : claimed ⊆ passClaimed claimed matched doClaim := by
  unfold passClaimed
  split
  · cases matched with
    | some q => exact fun x hx => List.mem_cons_of_mem q hx
    | none => exact fun x hx => hx
  · exact fun x hx => hx

theorem match_avail_not_claimed (rec : SessionRec)
    (pid_cwd_map : List (Nat × String)) (claimed : List Nat) (p : Nat)
    (h : match_session_to_claude_pid rec (passAvail pid_cwd_map claimed) =
      some p) : p ∉ claimed := by
  obtain ⟨cw, hcw⟩ := match_pid_mem rec (passAvail pid_cwd_map claimed) p h
  have hmem := List.mem_filter.1 hcw
  intro hp
  have : claimed.contains p = true := List.elem_iff.2 hp
  rw [this] at hmem
  exact absurd hmem.2 (by decide)

theorem passRecord_claimed_pid (sid : String) (rec : SessionRec)
    (sm : String × String) (matched : Option Nat) (doClaim : Bool) (p : Nat)
    (h : (passRecord sid rec sm matched doClaim).claimed_pid = some p) :
    doClaim = true ∧ matched = some p := by
  unfold passRecord at h
  simp only at h
  split at h
  · exact ⟨by assumption, h⟩
  · cases h

theorem passClaimed_mem_self (claimed : List Nat) (p : Nat)
    (hdo : passDoClaim (some p) st = true) :
    p ∈ passClaimed claimed (some p) (passDoClaim (some p) st) := by
  unfold passClaimed
  rw [if_pos hdo]
  exact List.mem_cons_self p claimed

/-- Every record emitted by the claiming loop claims only pids outside the
incoming claimed set. -/
theorem passGo_claimed_not_before (pid_cwd_map : List (Nat × String))
    (wd : Bool) :
    ∀ (sess : List (String × SessionRec)) (claimed : List Nat)
      (r : OutputRecord), r ∈ passGo pid_cwd_map wd claimed sess →
      ∀ p : Nat, r.claimed_pid = some p → p ∉ claimed
  | [], _, _, hr => by cases hr
  | (sid, rec) :: rest, claimed, r, hr => by
    simp only [passGo] at hr
    split at hr
    · exact passGo_claimed_not_before pid_cwd_map wd rest claimed r hr
    · intro p hp
      split at hr
      · have := passGo_claimed_not_before pid_cwd_map wd rest _ r hr p hp
        exact fun hc => this (passClaimed_subset claimed _ _ hc)
      · rcases List.mem_cons.1 hr with rfl | hr'
        · obtain ⟨-, hm⟩ := passRecord_claimed_pid _ _ _ _ _ _ hp
          exact match_avail_not_claimed rec pid_cwd_map claimed p hm
        · have := passGo_claimed_not_before pid_cwd_map wd rest _ r hr' p hp
          exact fun hc => this (passClaimed_subset claimed _ _ hc)

/-- The records of the claiming loop pairwise never claim the same pid. -/
theorem passGo_pairwise (pid_cwd_map : List (Nat × String)) (wd : Bool) :
    ∀ (sess : List (String × SessionRec)) (claimed : List Nat),
      (passGo pid_cwd_map wd claimed sess).Pairwise DisjClaim
  | [], _ => List.Pairwise.nil
  | (sid, rec) :: rest, claimed => by
    simp only [passGo]
    split
    · exact passGo_pairwise pid_cwd_map wd rest claimed
    · split
      · exact passGo_pairwise pid_cwd_map wd rest _
      · rw [List.pairwise_cons]
        refine ⟨?_, passGo_pairwise pid_cwd_map wd rest _⟩
        intro r' hr' p hp
        obtain ⟨hdo, hm⟩ := passRecord_claimed_pid _ _ _ _ _ _ hp
        intro hp'
        have hnotin := passGo_claimed_not_before pid_cwd_map wd rest _ r'
          hr' p hp'
        apply hnotin
        rw [hm] at hdo ⊢
        exact passClaimed_mem_self claimed p hdo

theorem liveness_exact_start (rec : SessionRec) (cwds : List String)
    (h1 : rec.start_cwd ≠ "") (h2 : cwds.contains rec.start_cwd = true) :
    _liveness_check rec cwds = "exact:start" := by
  unfold _liveness_check
  rw [if_pos ⟨h1, h2⟩]

theorem liveness_nil (rec : SessionRec) : _liveness_check rec [] = "" := by
  unfold _liveness_check
  rw [if_neg, if_neg]
  · rfl
  · rintro ⟨-, hc⟩
    exact absurd (List.elem_iff.1 hc) (List.not_mem_nil _)
  · rintro ⟨-, hc⟩
    exact absurd (List.elem_iff.1 hc) (List.not_mem_nil _)

/-! ### The claims -/

/-- C10: the pid matcher succeeds exactly when the liveness check over the
cwd values of the same pid→cwd map returns a non-empty match method: the
two four-layer matchers agree on success. -/
theorem c10_match_liveness_agree (rec : SessionRec)
    (m : List (Nat × String)) :
    (match_session_to_claude_pid rec m).isSome = true ↔
      _liveness_check rec (m.map Prod.snd) ≠ "" := by
  rw [match_isSome_iff, _liveness_check_ne_iff]
  constructor
  · rintro (⟨h, pc, hmem, hpc⟩ | ⟨h, pc, hmem, hpc⟩ | ⟨h, pc, hmem, hrel⟩ |
            ⟨⟨h1, h2⟩, pc, hmem, hrel⟩)
    · exact Or.inl ⟨h, List.mem_map.2 ⟨pc, hmem, hpc⟩⟩
    · exact Or.inr (Or.inl ⟨h, List.mem_map.2 ⟨pc, hmem, hpc⟩⟩)
    · exact Or.inr (Or.inr ⟨pc.2, List.mem_map.2 ⟨pc, hmem, rfl⟩,
        Or.inl ⟨h, hrel⟩⟩)
    · exact Or.inr (Or.inr ⟨pc.2, List.mem_map.2 ⟨pc, hmem, rfl⟩,
        Or.inr ⟨h1, h2, hrel⟩⟩)
  · rintro (⟨h, hmem⟩ | ⟨h, hmem⟩ | ⟨c, hc, ⟨h1, hrel⟩ | ⟨h1, h2, hrel⟩⟩)
    · obtain ⟨pc, hpc, hpc2⟩ := List.mem_map.1 hmem
      exact Or.inl ⟨h, pc, hpc, hpc2⟩
    · obtain ⟨pc, hpc, hpc2⟩ := List.mem_map.1 hmem
      exact Or.inr (Or.inl ⟨h, pc, hpc, hpc2⟩)
    · obtain ⟨pc, hpc, rfl⟩ := List.mem_map.1 hc
      exact Or.inr (Or.inr (Or.inl ⟨h1, pc, hpc, hrel⟩))
    · obtain ⟨pc, hpc, rfl⟩ := List.mem_map.1 hc
      exact Or.inr (Or.inr (Or.inr ⟨⟨h1, h2⟩, pc, hpc, hrel⟩))

/-- C2: after the claiming pass, no pid is claimed by two distinct emitted
records: the claimed set grows only by pids absent from it, so each live
pid is attributed to at most one session per pass. -/
theorem c2_pid_claim_injective (sessions : SessMap)
    (pid_cwd_map : List (Nat × String)) (without_dead : Bool) :
    (_output_sessions sessions pid_cwd_map without_dead).Pairwise
      (fun r1 r2 => ∀ p : Nat,
        r1.claimed_pid = some p → r2.claimed_pid ≠ some p) := by
  unfold _output_sessions
  have hperm := sSort_perm recLe
    (passGo pid_cwd_map without_dead [] (sSort sessLe sessions))
  exact (hperm.pairwise_iff (fun hab => disjClaim_symm hab)).2
    (passGo_pairwise pid_cwd_map without_dead (sSort sessLe sessions) [])

/-- C6: the emitted records are ordered by state group with the fixed
priority FRESH(0) < PERMIT(1) < QUESTION(2) < IDLE(3) < RUN:*(4) < DEAD(5),
and by timestamp sort value descending within a group. -/
theorem c6_output_ordering :
    (∀ t : String, _state_sort_key ("RUN:" ++ t) = 4) ∧
    _state_sort_key "FRESH" = 0 ∧ _state_sort_key "PERMIT" = 1 ∧
    _state_sort_key "QUESTION" = 2 ∧ _state_sort_key "IDLE" = 3 ∧
    _state_sort_key "DEAD" = 5 ∧
    ∀ (sessions : SessMap) (pid_cwd_map : List (Nat × String)) (wd : Bool),
      (_output_sessions sessions pid_cwd_map wd).Pairwise
        (fun a b => _state_sort_key a.state < _state_sort_key b.state ∨
          (_state_sort_key a.state = _state_sort_key b.state ∧
           _ts_sortval b._ts ≤ _ts_sortval a._ts)) := by
  refine ⟨state_key_run, by decide, by decide, by decide, by decide,
    by decide, ?_⟩
  intro sessions pid_cwd_map wd
  unfold _output_sessions
  have h := sSort_pairwise recLe recLe_total recLe_trans
    (passGo pid_cwd_map wd [] (sSort sessLe sessions))
  refine h.imp ?_
  intro a b hab
  unfold recLe at hab
  simp only [Bool.or_eq_true, Bool.and_eq_true, decide_eq_true_eq] at hab
  exact hab

/-- C7: the ancestor layers only ever match when the candidate's path
components are a prefix of the session path's components (structural
containment); in particular `/home/u/proj-2` is not a descendant of
`/home/u/proj` and yields no match. -/
theorem c7_structural_containment :
    (∀ (rec : SessionRec) (cands : List String),
      _liveness_check rec cands = "ancestor:start" →
      ∃ c ∈ cands, ∃ t, pathParts rec.start_cwd = pathParts c ++ t) ∧
    (∀ (rec : SessionRec) (cands : List String),
      _liveness_check rec cands = "ancestor:last" →
      ∃ c ∈ cands, ∃ t, pathParts rec.cwd = pathParts c ++ t) ∧
    relTo "/home/u/proj-2" "/home/u/proj" = false ∧
    _liveness_check ⟨none, "", false, "/home/u/proj-2", "/home/u/proj-2"⟩
      ["/home/u/proj"] = "" := by
  refine ⟨?_, ?_, by decide, by decide⟩
  · intro rec cands h
    unfold _liveness_check at h
    split_ifs at h
    · exact absurd h (by decide)
    · exact absurd h (by decide)
    · obtain ⟨c, hc, hrel⟩ := _liveness_loop_start _ _ _ h
      exact ⟨c, hc, relTo_prefix _ _ hrel⟩
  · intro rec cands h
    unfold _liveness_check at h
    split_ifs at h
    · exact absurd h (by decide)
    · exact absurd h (by decide)
    · obtain ⟨c, hc, hrel⟩ := _liveness_loop_last _ _ _ h
      exact ⟨c, hc, relTo_prefix _ _ hrel⟩

/-- C7 witness: a concrete ancestor match, with the component-prefix
certificate obtained from the theorem. -/
theorem c7_witness :
    ∃ c ∈ ["/a"], ∃ t, pathParts "/a/s" = pathParts c ++ t := by
  have h := c7_structural_containment.1 ⟨none, "", false, "/a/s", ""⟩ ["/a"]
    (by decide)
  exact h

/-- C1 counterexample: a terminated record has an empty derived match
method but state `TERMINATED`, not `DEAD` — the terminated row beats the
override, contradicting the claim's "including the terminated row". -/
theorem c1_counterexample :
    _liveness_check ⟨none, "", true, "", ""⟩ [] = "" ∧
    (session_state ⟨none, "", true, "", ""⟩ []).2 = "" ∧
    (session_state ⟨none, "", true, "", ""⟩ []).1 = "TERMINATED" ∧
    (session_state ⟨none, "", true, "", ""⟩ []).1 ≠ "DEAD" := by decide

/-- C1 amended: for every non-terminated record, an empty liveness result
forces the returned state to `DEAD` (with empty match method), whatever the
event-kind table would produce. -/
theorem c1_override_amended (rec : SessionRec) (cwds : List String)
    (ht : rec.terminated = false)
    (hmm : _liveness_check rec cwds = "") :
    session_state rec cwds = ("DEAD", "") :=
  session_state_dead rec cwds ht hmm

/-- C1 witness: the amended override law at a concrete idle-notification
record with no live process. -/
theorem c1_witness :
    session_state
      ⟨some ⟨some "Notification", some "s", some "/p", none, none,
        some "idle_prompt", none⟩, "Notification", false, "/p", "/p"⟩
      [] = ("DEAD", "") :=
  c1_override_amended _ [] rfl (by decide)

/-! ### Ingestion lemmas and the tracker claims -/

theorem lookupSess_updSess (m : SessMap) (sid : String) (r : SessionRec) :
    lookupSess (updSess m sid r) sid = some r := by
  induction m with
  | nil => simp [updSess, lookupSess]
  | cons kv rest ih =>
    obtain ⟨k, v⟩ := kv
    by_cases h : k = sid
    · simp [updSess, lookupSess, h]
    · simp [updSess, lookupSess, h, ih]

theorem updSess_updSess (m : SessMap) (sid : String) (r r' : SessionRec) :
    updSess (updSess m sid r) sid r' = updSess m sid r' := by
  induction m with
  | nil => simp [updSess]
  | cons kv rest ih =>
    obtain ⟨k, v⟩ := kv
    by_cases h : k = sid
    · simp [updSess, h]
    · simp [updSess, h, ih]

/-- The record transform of one event is idempotent. -/
theorem ingestRecord_idem (e : Event) (r0 : SessionRec) :
    ingestRecord e (ingestRecord e r0) = ingestRecord e r0 := by
  unfold ingestRecord
  by_cases h1 : e.cwd.getD "" ≠ "" <;>
    by_cases hss : e._event.getD "" = "SessionStart" <;>
      by_cases h3 : e._event.getD "" = "SessionEnd" <;>
        by_cases h4 : _is_tracked_event e = true <;>
          simp [h1, hss, h3, h4]

theorem ingestEvent_idem (m : SessMap) (e : Event) :
    ingestEvent (ingestEvent m e) e = ingestEvent m e := by
  unfold ingestEvent
  by_cases hsid : e.session_id.getD "" = ""
  · simp [hsid]
  · simp only [hsid, if_neg, if_false]
    rw [lookupSess_updSess, updSess_updSess, Option.getD_some,
      ingestRecord_idem]

/-- C8: ingesting the identical line twice in a row yields the same session
map (hence, for every session, the same `last_event`, `cwd` and
`start_cwd`) as ingesting it once. -/
theorem c8_ingest_idempotent (parse : String → Option Event) (m : SessMap)
    (line : String) :
    processLine parse (processLine parse m line) line =
      processLine parse m line := by
  simp only [processLine]
  split
  · rfl
  · rename_i hg
    cases hp : parse (String.mk (pyStripData line.data)) with
    | none => simp [hp]
    | some e => simp [hp, hg, ingestEvent_idem]

/-- C9: a line that strips to empty, does not start with a brace, fails to
parse, or parses without a non-empty `session_id`, leaves the session map
unchanged. -/
theorem c9_malformed_line_no_effect (parse : String → Option Event)
    (m : SessMap) (line : String)
    (h : pyStripData line.data = [] ∨
         (pyStripData line.data).head? ≠ some '{' ∨
         parse (String.mk (pyStripData line.data)) = none ∨
         ∃ e, parse (String.mk (pyStripData line.data)) = some e ∧
           e.session_id.getD "" = "") :
    processLine parse m line = m := by
  simp only [processLine]
  rcases h with h1 | h2 | h3 | ⟨e, he, hsid⟩
  · simp [h1]
  · have hd : decide ((pyStripData line.data).head? ≠ some '{') = true :=
      decide_eq_true h2
    simp [hd]
  · split
    · rfl
    · rw [h3]
  · split
    · rfl
    · rw [he]
      simp [ingestEvent, hsid]

/-- C9 witness: a whitespace-only line leaves an empty session map empty. -/
theorem c9_witness : processLine (fun _ => none) [] "   " = [] :=
  c9_malformed_line_no_effect (fun _ => none) [] "   " (Or.inl (by decide))

/-- What one event does to the `start_cwd` of an existing record. -/
theorem ingestRecord_start_cwd (e : Event) (r0 : SessionRec) :
    (ingestRecord e r0).start_cwd =
      if e._event.getD "" = "SessionStart" ∧ e.cwd.getD "" ≠ "" then
        e.cwd.getD "" else r0.start_cwd := by
  unfold ingestRecord
  by_cases h1 : e.cwd.getD "" ≠ "" <;>
    by_cases hss : e._event.getD "" = "SessionStart" <;>
      by_cases h3 : e._event.getD "" = "SessionEnd" <;>
        by_cases h4 : _is_tracked_event e = true <;>
          simp [h1, hss, h3, h4]

/-- C4 counterexample: a single event of an untracked, non-SessionStart
kind creates the record with `start_cwd` equal to that event's cwd — not
the empty string the claim requires when no SessionStart ever arrives. -/
theorem c4_counterexample :
    (lookupSess
      (ingestEvents
        [⟨some "PreCompact", some "s", some "/p", none, none, none, none⟩])
      "s").map SessionRec.start_cwd = some "/p" ∧ ("/p" : String) ≠ "" := by
  decide

/-- C4 amended: `start_cwd` is initialized from the first event of any kind
(its cwd, empty if absent), and is overwritten by every SessionStart event
carrying a non-empty cwd; other events never overwrite an existing
record's `start_cwd`. -/
theorem c4_start_cwd_amended :
    (∀ (m : SessMap) (e : Event),
      e.session_id.getD "" ≠ "" →
      lookupSess m (e.session_id.getD "") = none →
      (lookupSess (ingestEvent m e) (e.session_id.getD "")).map
        SessionRec.start_cwd = some (e.cwd.getD "")) ∧
    (∀ (m : SessMap) (e : Event) (r : SessionRec),
      e.session_id.getD "" ≠ "" →
      lookupSess m (e.session_id.getD "") = some r →
      (lookupSess (ingestEvent m e) (e.session_id.getD "")).map
        SessionRec.start_cwd =
        some (if e._event.getD "" = "SessionStart" ∧ e.cwd.getD "" ≠ ""
              then e.cwd.getD "" else r.start_cwd)) := by
  constructor
  · intro m e hsid hnone
    unfold ingestEvent
    rw [if_neg hsid, lookupSess_updSess, hnone, Option.getD_none,
      Option.map_some', ingestRecord_start_cwd]
    split
    · rfl
    · rfl
  · intro m e r hsid hsome
    unfold ingestEvent
    rw [if_neg hsid, lookupSess_updSess, hsome, Option.getD_some,
      Option.map_some', ingestRecord_start_cwd]

/-- C4 witness: both amended parts at concrete inputs — creation from a
non-SessionStart event's cwd, and overwrite by a later SessionStart. -/
theorem c4_witness :
    (lookupSess
      (ingestEvent []
        ⟨some "PreToolUse", some "s", some "/p", none, none, none, none⟩)
      "s").map SessionRec.start_cwd = some "/p" ∧
    (lookupSess
      (ingestEvent [("s", ⟨none, "", false, "/p", "/p"⟩)]
        ⟨some "SessionStart", some "s", some "/q", none, none, none, none⟩)
      "s").map SessionRec.start_cwd = some "/q" := by
  constructor
  · exact c4_start_cwd_amended.1 []
      ⟨some "PreToolUse", some "s", some "/p", none, none, none, none⟩
      (by decide) (by decide)
  · have h := c4_start_cwd_amended.2 [("s", ⟨none, "", false, "/p", "/p"⟩)]
      ⟨some "SessionStart", some "s", some "/q", none, none, none, none⟩
      ⟨none, "", false, "/p", "/p"⟩ (by decide) (by decide)
    simpa using h

/-- C3 counterexample: with candidate enumeration order `["/b", "/a"]`,
`start_cwd = "/a/s"` is a descendant of the candidate `"/a"`, yet the
resolver answers `"ancestor:last"` because the earlier candidate `"/b"`
already matches `cwd = "/b/s"` — the two ancestor layers are not tried
strictly one after the other. -/
theorem c3_counterexample :
    _liveness_check ⟨none, "", false, "/a/s", "/b/s"⟩ ["/b", "/a"] =
      "ancestor:last" ∧
    relTo "/a/s" "/a" = true ∧ "/a" ∈ ["/b", "/a"] ∧
    ("ancestor:last" : String) ≠ "ancestor:start" := by decide

/-- C3 amended: the two exact layers are tried strictly first, in order;
then the candidates are scanned in enumeration order, each tried first for
start-cwd ancestry and then for last-cwd ancestry, first hit wins. So
`ancestor:start` is guaranteed only when no earlier candidate matched
either ancestry test. -/
theorem c3_layer_order_amended :
    (∀ (rec : SessionRec) (cands : List String),
      rec.start_cwd ≠ "" → cands.contains rec.start_cwd = true →
      _liveness_check rec cands = "exact:start") ∧
    (∀ (rec : SessionRec) (cands : List String),
      ¬(rec.start_cwd ≠ "" ∧ cands.contains rec.start_cwd = true) →
      rec.cwd ≠ "" → cands.contains rec.cwd = true →
      _liveness_check rec cands = "exact:last") ∧
    (∀ (rec : SessionRec) (pre post : List String) (c : String),
      ¬(rec.start_cwd ≠ "" ∧
        (pre ++ c :: post).contains rec.start_cwd = true) →
      ¬(rec.cwd ≠ "" ∧ (pre ++ c :: post).contains rec.cwd = true) →
      (∀ c' ∈ pre, ¬(rec.start_cwd ≠ "" ∧ relTo rec.start_cwd c' = true) ∧
        ¬(rec.cwd ≠ "" ∧ rec.cwd ≠ rec.start_cwd ∧
          relTo rec.cwd c' = true)) →
      (rec.start_cwd ≠ "" → relTo rec.start_cwd c = true →
        _liveness_check rec (pre ++ c :: post) = "ancestor:start") ∧
      (¬(rec.start_cwd ≠ "" ∧ relTo rec.start_cwd c = true) →
        rec.cwd ≠ "" → rec.cwd ≠ rec.start_cwd → relTo rec.cwd c = true →
        _liveness_check rec (pre ++ c :: post) = "ancestor:last")) := by
  refine ⟨?_, ?_, ?_⟩
  · exact liveness_exact_start
  · intro rec cands hx1 h1 h2
    unfold _liveness_check
    rw [if_neg hx1, if_pos ⟨h1, h2⟩]
  · intro rec pre post c hx1 hx2 hpre
    constructor
    · intro hs hrel
      unfold _liveness_check
      rw [if_neg hx1, if_neg hx2,
        _liveness_loop_append rec.start_cwd rec.cwd pre (c :: post) hpre]
      simp only [_liveness_loop]
      rw [if_pos ⟨hs, hrel⟩]
    · intro hns hl hne hrel
      unfold _liveness_check
      rw [if_neg hx1, if_neg hx2,
        _liveness_loop_append rec.start_cwd rec.cwd pre (c :: post) hpre]
      simp only [_liveness_loop]
      rw [if_neg hns, if_pos ⟨hl, hne, hrel⟩]

/-- C3 witness: the per-candidate ancestor scan at concrete inputs — the
first candidate matches `start_cwd` and wins as `ancestor:start`. -/
theorem c3_witness :
    _liveness_check ⟨none, "", false, "/a/s", ""⟩ ["/a"] =
      "ancestor:start" :=
  (c3_layer_order_amended.2.2 ⟨none, "", false, "/a/s", ""⟩ [] [] "/a"
    (by decide) (by decide) (by simp)).1 (by decide) (by decide)

/-! ### Computation lemmas for the recency scenario -/

theorem sSort_pair (le : α → α → Bool) (x y : α) :
    sSort le [x, y] = if le x y then [x, y] else [y, x] := by
  simp only [sSort, List.foldl, sInsert]

theorem passAvail_nil (m : List (Nat × String)) : passAvail m [] = m :=
  List.filter_eq_self.2 (fun _ _ => rfl)

theorem passAvail_single_claimed (p : Nat) (d : String) :
    passAvail [(p, d)] [p] = [] := by
  simp [passAvail]

theorem match_single_exact_start (rec : SessionRec) (p : Nat) (d : String)
    (hs : rec.start_cwd = d) (hd : d ≠ "") :
    match_session_to_claude_pid rec [(p, d)] = some p := by
  unfold match_session_to_claude_pid
  rw [hs, if_pos hd, List.find?_cons_of_pos _ (by simp)]

theorem match_nil (rec : SessionRec) :
    match_session_to_claude_pid rec [] = none := by
  unfold match_session_to_claude_pid
  simp [List.find?_nil]

/-- C5 counterexample: a session with the parsable pre-epoch timestamp
1950-01-02 sorts *below* a session with an unparsable timestamp (sort
value 0 = the epoch), so unparsable timestamps are not ordered last. -/
theorem c5_counterexample :
    _ts_sortval "1950-01-02T00:00:00" < 0 ∧
    _ts_sortval "not-a-timestamp" = 0 ∧
    sSort sessLe
      [("old", ⟨some ⟨some "Stop", some "old", none,
          some "1950-01-02T00:00:00", none, none, none⟩,
        "Stop", false, "", ""⟩),
       ("junk", ⟨some ⟨some "Stop", some "junk", none,
          some "not-a-timestamp", none, none, none⟩,
        "Stop", false, "", ""⟩)] =
      [("junk", ⟨some ⟨some "Stop", some "junk", none,
          some "not-a-timestamp", none, none, none⟩,
        "Stop", false, "", ""⟩),
       ("old", ⟨some ⟨some "Stop", some "old", none,
          some "1950-01-02T00:00:00", none, none, none⟩,
        "Stop", false, "", ""⟩)] := by decide

/-- C5 amended: sessions are processed in descending order of the sort
value of the last event's timestamp, where an unparsable or absent
timestamp gets sort value 0 (the epoch) — below every post-1970 timestamp
but above pre-1970 ones; consequently, of two non-terminated sessions with
the same `start_cwd` and a single live process in that directory, the one
with the strictly later timestamp claims the pid and the other resolves to
DEAD. -/
theorem c5_recency_amended :
    (∀ sessions : SessMap, (sSort sessLe sessions).Pairwise
      (fun a b => sessKey b ≤ sessKey a)) ∧
    (∀ s : String, tsTimestampUs s = none → _ts_sortval s = 0) ∧
    (∀ (u v : String) (ru rv : SessionRec) (d : String) (p : Nat)
       (l : SessMap),
      (l = [(u, ru), (v, rv)] ∨ l = [(v, rv), (u, ru)]) →
      ru.terminated = false → rv.terminated = false →
      ru.start_cwd = d → rv.start_cwd = d → d ≠ "" → p ≠ 0 →
      sessKey (v, rv) < sessKey (u, ru) →
      ∃ r1 r2, _output_sessions l [(p, d)] false = [r1, r2] ∧
        r1.session_id = u ∧ r1.claimed_pid = some p ∧ r1.state ≠ "DEAD" ∧
        r2.session_id = v ∧ r2.state = "DEAD" ∧ r2.claimed_pid = none) := by
  refine ⟨?_, ?_, ?_⟩
  · intro sessions
    exact (sSort_pairwise sessLe sessLe_total sessLe_trans sessions).imp
      (fun h => by simpa [sessLe] using h)
  · intro s h
    unfold _ts_sortval
    rw [h]
    rfl
  · intro u v ru rv d p l hl htu htv hsu hsv hd hp hts
    have hsorted : sSort sessLe l = [(u, ru), (v, rv)] := by
      rcases hl with rfl | rfl
      · rw [sSort_pair, if_pos (show sessLe (u, ru) (v, rv) = true from
          decide_eq_true (le_of_lt hts))]
      · rw [sSort_pair, if_neg (show ¬sessLe (v, rv) (u, ru) = true from by
          simp only [sessLe, decide_eq_true_eq]
          exact not_le.2 hts)]
    have hsne : ru.start_cwd ≠ "" := by rw [hsu]; exact hd
    have hmatch1 : match_session_to_claude_pid ru (passAvail [(p, d)] []) =
        some p := by
      rw [passAvail_nil]
      exact match_single_exact_start ru p d hsu hd
    have hmm1 : _liveness_check ru
        ((passAvail [(p, d)] []).map Prod.snd) = "exact:start" := by
      rw [passAvail_nil]
      exact liveness_exact_start ru [d] hsne (by rw [hsu]; simp)
    have hstate1 := session_state_alive ru
      ((passAvail [(p, d)] []).map Prod.snd) htu (by rw [hmm1]; decide)
    have hdo1 : passDoClaim (some p)
        (session_state ru ((passAvail [(p, d)] []).map Prod.snd)).1 =
        true := by
      simp [passDoClaim, hp, hstate1.1]
    have hstep1 : passGo [(p, d)] false [] [(u, ru), (v, rv)] =
        passRecord u ru
          (session_state ru ((passAvail [(p, d)] []).map Prod.snd))
          (some p) true ::
        passGo [(p, d)] false [p] [(v, rv)] := by
      simp only [passGo, htu, Bool.false_eq_true, if_false, Bool.false_and,
        hmatch1, hdo1]
      rfl
    have hmm2 : _liveness_check rv
        ((passAvail [(p, d)] [p]).map Prod.snd) = "" := by
      rw [passAvail_single_claimed]
      exact liveness_nil rv
    have hstate2 : session_state rv
        ((passAvail [(p, d)] [p]).map Prod.snd) = ("DEAD", "") :=
      session_state_dead rv _ htv hmm2
    have hmatch2 : match_session_to_claude_pid rv (passAvail [(p, d)] [p]) =
        none := by
      rw [passAvail_single_claimed]
      exact match_nil rv
    have hstep2 : passGo [(p, d)] false [p] [(v, rv)] =
        [passRecord v rv ("DEAD", "") none false] := by
      simp only [passGo, htv, Bool.false_eq_true, if_false, Bool.false_and,
        hmatch2, hstate2]
      rfl
    have hkey1 : _state_sort_key (passRecord u ru
        (session_state ru ((passAvail [(p, d)] []).map Prod.snd))
        (some p) true).state ≤ 4 := hstate1.2.1
    have hle : recLe (passRecord u ru
        (session_state ru ((passAvail [(p, d)] []).map Prod.snd))
        (some p) true) (passRecord v rv ("DEAD", "") none false) = true := by
      have h45 : _state_sort_key
          (passRecord v rv ("DEAD", "") none false).state = 5 := rfl
      unfold recLe
      rw [h45, decide_eq_true (lt_of_le_of_lt hkey1 (by norm_num)),
        Bool.true_or]
    refine ⟨passRecord u ru
        (session_state ru ((passAvail [(p, d)] []).map Prod.snd))
        (some p) true,
      passRecord v rv ("DEAD", "") none false, ?_, rfl, rfl, hstate1.1,
      rfl, rfl, rfl⟩
    unfold _output_sessions
    rw [hsorted, hstep1, hstep2, sSort_pair, if_pos hle]

/-- C5 witness: the later-stamped of two same-directory sessions claims the
single live pid and the earlier one is DEAD, at concrete inputs. -/
theorem c5_witness :
    ∃ r1 r2, _output_sessions
      [("s1", ⟨some ⟨some "Stop", some "s1", some "/p",
          some "2026-01-01T00:00:02+00:00", none, none, none⟩,
        "Stop", false, "/p", "/p"⟩),
       ("s2", ⟨some ⟨some "Stop", some "s2", some "/p",
          some "2026-01-01T00:00:01+00:00", none, none, none⟩,
        "Stop", false, "/p", "/p"⟩)] [(10, "/p")] false = [r1, r2] ∧
      r1.session_id = "s1" ∧ r1.claimed_pid = some 10 ∧ r1.state ≠ "DEAD" ∧
      r2.session_id = "s2" ∧ r2.state = "DEAD" ∧ r2.claimed_pid = none :=
  c5_recency_amended.2.2 "s1" "s2"
    ⟨some ⟨some "Stop", some "s1", some "/p",
        some "2026-01-01T00:00:02+00:00", none, none, none⟩,
      "Stop", false, "/p", "/p"⟩
    ⟨some ⟨some "Stop", some "s2", some "/p",
        some "2026-01-01T00:00:01+00:00", none, none, none⟩,
      "Stop", false, "/p", "/p"⟩
    "/p" 10 _ (Or.inl rfl) rfl rfl rfl rfl (by decide) (by decide)
    (by decide)
